import Mathlib

/-!
Shallow embedding of `src/app.py` — a single-file Streamlit chat UI that
wraps a hosted chat-completion API — together with proofs of the
specification claims.

Modelling conventions:
* Python `json` values are the inductive `Json` below; Python distinguishes
  integers from floats on parsing, so both constructors exist.  Floats are
  modelled as rationals.
* The file system is an association list from paths to file contents; a file
  content is either a parseable JSON value or an unparseable blob
  (`FileContent.corrupt`), abstracting the text layer of `json.dump` /
  `json.load`.
* Streamlit's `st.error` calls are made explicit: functions that may display
  an error return the list of displayed error messages.
* The remote model call (`chat_model.stream`) is an input: it either yields a
  list of content chunks or raises with a message (`StreamResult`).
* Wall-clock durations (`time.time()` differences) are an input rational.
-/

namespace DeepResearch

/-- JSON values as handled by Python's `json` module.  `json.load` returns
Python ints for integer literals and floats otherwise; floats are modelled
as rationals. -/
inductive Json where
  | null : Json
  | bool (b : Bool) : Json
  | int (n : Int) : Json
  | float (q : ℚ) : Json
  | str (s : String) : Json
  | arr (elems : List Json) : Json
  | obj (fields : List (String × Json)) : Json

/-- Python `j[key]` on a parsed JSON value: `some` when `j` is an object
that has the key; `none` stands for the raised `KeyError` (missing key) or
`TypeError` (not a dict). -/
def getField (j : Json) (key : String) : Option Json :=
  match j with
  | .obj fields => fields.lookup key
  | _ => none

/-- Content of a file on disk: either text that parses as JSON (kept as its
parse) or text that `json.load` rejects, with the decode-error message. -/
inductive FileContent where
  | corrupt (msg : String) : FileContent
  | val (j : Json) : FileContent

/-- The on-disk state: an association list from file path to content.  A
write shadows older bindings, so `fsRead` sees the most recent write. -/
def FileStore : Type := List (String × FileContent)

/-- Write (create or overwrite) a whole file. -/
def fsWrite (fs : FileStore) (p : String) (c : FileContent) : FileStore :=
  (p, c) :: fs

/-- Read a whole file; `none` models `FileNotFoundError`. -/
def fsRead (fs : FileStore) (p : String) : Option FileContent :=
  List.lookup p fs

/-- Constant `CHAT_HISTORY_FOLDER` from `src/app.py`. -/
def CHAT_HISTORY_FOLDER : String := "chat_histories"

/-- `get_chat_history_path` from `src/app.py`:
`os.path.join(CHAT_HISTORY_FOLDER, f"{session_id}.json")`. -/
def get_chat_history_path (session_id : String) : String :=
  CHAT_HISTORY_FOLDER ++ "/" ++ session_id ++ ".json"

/-- `save_chat_history` from `src/app.py`: `json.dump` the whole message
list into `<CHAT_HISTORY_FOLDER>/<session_id>.json` (a full overwrite) and
return the file path. -/
def save_chat_history (messages : List Json) (session_id : String) (fs : FileStore) :
    FileStore × String :=
  let file_path := get_chat_history_path session_id
  (fsWrite fs file_path (.val (.arr messages)), file_path)

/-- `load_chat_history` from `src/app.py`: read and `json.load` the session
file.  `FileNotFoundError` silently yields `[]`; any other failure (e.g. a
JSON decode error) yields `[]` after displaying
`st.error(f"Failed to load chat history: ...")`.  The second component is
the list of error messages displayed. -/
def load_chat_history (session_id : String) (fs : FileStore) : Json × List String :=
  match fsRead fs (get_chat_history_path session_id) with
  | none => (.arr [], [])
  | some (.corrupt e) => (.arr [], ["Failed to load chat history: " ++ e])
  | some (.val j) => (j, [])

/-- Metadata attached to an assistant turn (the dict literal built in
`main`, lines 614-619 of `src/app.py`). -/
structure TurnMeta where
  time_taken : ℚ
  tokens : Int
  timestamp : String
  model : String

/-- One conversation turn as persisted by the app: a dict with `role` and
`content` keys, and, for assistant turns, a `metadata` dict. -/
structure Turn where
  role : String
  content : String
  metadata : Option TurnMeta

/-- JSON encoding of the metadata dict, with the key order used by the
dict literal in `main` (Python dicts keep insertion order in `json.dump`). -/
def encodeMeta (m : TurnMeta) : Json :=
  .obj [("time_taken", .float m.time_taken), ("tokens", .int m.tokens),
        ("timestamp", .str m.timestamp), ("model", .str m.model)]

/-- JSON encoding of one turn, with the key order used by the dict
literals in `main` (`role`, `content`, then `metadata` when present). -/
def encodeTurn (t : Turn) : Json :=
  .obj (("role", .str t.role) :: ("content", .str t.content) ::
    (match t.metadata with
     | none => []
     | some m => [("metadata", encodeMeta m)]))

/-- JSON encoding of a whole turn list (what `json.dump(messages, f)`
writes). -/
def encodeTurns (ts : List Turn) : Json :=
  .arr (ts.map encodeTurn)

/-- Read a metadata dict back from JSON. -/
def decodeMeta (j : Json) : Option TurnMeta :=
  match getField j "time_taken", getField j "tokens",
        getField j "timestamp", getField j "model" with
  | some (.float q), some (.int n), some (.str ts), some (.str md) =>
      some ⟨q, n, ts, md⟩
  | _, _, _, _ => none

/-- Read one turn back from JSON. -/
def decodeTurn (j : Json) : Option Turn :=
  match getField j "role", getField j "content" with
  | some (.str r), some (.str c) =>
      (match getField j "metadata" with
       | none => some ⟨r, c, none⟩
       | some mj => (decodeMeta mj).map (fun m => ⟨r, c, some m⟩))
  | _, _ => none

/-- Read a whole turn list back from JSON. -/
def decodeTurns (j : Json) : Option (List Turn) :=
  match j with
  | .arr xs => xs.mapM decodeTurn
  | _ => none

theorem decodeTurn_encodeTurn (t : Turn) : decodeTurn (encodeTurn t) = some t := by
  obtain ⟨r, c, m⟩ := t
  cases m <;> rfl

theorem decodeTurns_encodeTurns (ts : List Turn) :
    decodeTurns (encodeTurns ts) = some ts := by
  induction ts with
  | nil => rfl
  | cons t ts ih =>
      simp only [decodeTurns, encodeTurns, List.map_cons, List.mapM_cons,
        decodeTurn_encodeTurn, Option.pure_def, Option.bind_eq_bind,
        Option.some_bind] at ih ⊢
      rw [ih]
      rfl

/-- C2: writing a turn list with `save_chat_history` and reading the
per-session file back with `load_chat_history` yields an equal turn list
(and the load displays no error). -/
theorem c2_save_load_roundtrip (fs : FileStore) (ts : List Turn) (sid : String) :
    decodeTurns (load_chat_history sid (save_chat_history (ts.map encodeTurn) sid fs).1).1
      = some ts ∧
    (load_chat_history sid (save_chat_history (ts.map encodeTurn) sid fs).1).2 = [] := by
  have hread :
      fsRead (save_chat_history (ts.map encodeTurn) sid fs).1 (get_chat_history_path sid)
        = some (.val (.arr (ts.map encodeTurn))) := by
    simp [save_chat_history, fsWrite, fsRead, List.lookup]
  constructor
  · rw [load_chat_history, hread]
    exact decodeTurns_encodeTurns ts
  · rw [load_chat_history, hread]

/-- Langchain message values as built by `process_chat`
(`SystemMessage` / `HumanMessage` / `AIMessage`). -/
inductive LCMessage where
  | system (content : String) : LCMessage
  | human (content : String) : LCMessage
  | ai (content : String) : LCMessage

/-- Content of a langchain message. -/
def LCMessage.content : LCMessage → String
  | .system c => c
  | .human c => c
  | .ai c => c

/-- Whether a langchain message is a `SystemMessage`. -/
def LCMessage.isSystem : LCMessage → Bool
  | .system _ => true
  | _ => false

/-- Python `l[-n:]`: the last `n` elements (the whole list when shorter). -/
def lastN (n : Nat) (l : List α) : List α :=
  l.drop (l.length - n)

/-- Conversion of one stored message dict to a langchain message, as done by
the loop in `process_chat` (lines 324-328 of `src/app.py`).  `msg["role"]`
on a malformed entry raises (`Except.error`); a role other than `"user"` /
`"assistant"` is skipped (`Except.ok none`); a non-string `content` for a
kept role fails langchain's message validation. -/
def msgToLC (j : Json) : Except String (Option LCMessage) :=
  match getField j "role" with
  | none => .error "KeyError: role"
  | some (.str r) =>
      if r = "user" then
        match getField j "content" with
        | some (.str c) => .ok (some (.human c))
        | some _ => .error "validation error: content"
        | none => .error "KeyError: content"
      else if r = "assistant" then
        match getField j "content" with
        | some (.str c) => .ok (some (.ai c))
        | some _ => .error "validation error: content"
        | none => .error "KeyError: content"
      else .ok none
  | some _ => .ok none

/-- The history-conversion loop of `process_chat`: converts each message in
order, propagating the first raised exception. -/
def historyToLC : List Json → Except String (List LCMessage)
  | [] => .ok []
  | j :: rest =>
      match msgToLC j with
      | .error e => .error e
      | .ok none => historyToLC rest
      | .ok (some m) => (historyToLC rest).map (fun ms => m :: ms)

/-- The system instruction of `process_chat` (lines 334-336 of
`src/app.py`). -/
def system_prompt : String :=
  "You are an advanced research assistant powered by Perplexity AI. Provide thorough, accurate, and well-cited answers.\n        Use markdown formatting for clarity: headers, lists, and bold text for key points.\n        Always cite your sources clearly. Format citations as [1], [2], etc."

/-- The outbound message list built by `process_chat` (lines 320-337):
the converted last five history entries, then the current prompt as a
`HumanMessage`, with the `SystemMessage` inserted at position 0.  An
exception during conversion propagates to `process_chat`'s handler. -/
def build_messages (prompt : String) (history : List Json) :
    Except String (List LCMessage) :=
  (historyToLC (lastN 5 history)).map
    (fun hist => .system system_prompt :: (hist ++ [.human prompt]))

/-- Python `len(s.split())`: number of maximal whitespace-free runs. -/
def wordCount (s : String) : Nat :=
  ((s.split (fun ch => ch.isWhitespace)).filter (fun w => w ≠ "")).length

/-- The token estimate of `process_chat` (lines 356-358):
`int(sum(len(m.content.split()) * 1.3 for m in messages)
     + len(full_response.split()) * 1.3)`.
Python's float arithmetic is modelled as exact rational arithmetic; `int()`
truncation agrees with `Int.floor` on these non-negative values. -/
def tokenEstimate (messages : List LCMessage) (full_response : String) : Int :=
  Int.floor
    ((messages.map (fun m => (wordCount m.content : ℚ) * (13 / 10))).sum
      + (wordCount full_response : ℚ) * (13 / 10))

/-- Python `round(x, 2)` on the elapsed seconds (modelled on rationals). -/
def round2 (q : ℚ) : ℚ :=
  (Int.floor (q * 100 + 1 / 2) : ℚ) / 100

/-- Outcome of the remote call `chat_model.stream(messages)`: either the
list of streamed content chunks, or an exception with its message (network
error, auth error, malformed response, ...). -/
inductive StreamResult where
  | ok (chunks : List String) : StreamResult
  | err (msg : String) : StreamResult

/-- The pieces of `st.session_state` that the modelled code touches. -/
structure AppState where
  messages : List Json
  current_session_id : String
  total_tokens_used : Int
  total_queries : Nat

/-- The dict returned by `process_chat`
(`{"content": ..., "time_taken": ..., "tokens": ...}`). -/
structure ChatResult where
  content : String
  time_taken : ℚ
  tokens : Int

/-- `process_chat` from `src/app.py` (lines 318-376).  Everything runs in
one `try`: building the outbound messages, streaming the reply, estimating
tokens and bumping the usage counters.  Any exception is caught at this
call site, displayed via `st.error(f"Error processing chat: ...")`, and
turned into the error-result dict; nothing is retried.  Returns the result
dict, the updated session state and the list of displayed errors. -/
def process_chat (prompt : String) (history : List Json) (stream : StreamResult)
    (elapsed : ℚ) (st : AppState) : ChatResult × AppState × List String :=
  match build_messages prompt history with
  | .error e =>
      ({content := "I encountered an error: " ++ e, time_taken := 0, tokens := 0},
       st, ["Error processing chat: " ++ e])
  | .ok messages =>
      match stream with
      | .err e =>
          ({content := "I encountered an error: " ++ e, time_taken := 0, tokens := 0},
           st, ["Error processing chat: " ++ e])
      | .ok chunks =>
          let full_response := String.join chunks
          let total_tokens := tokenEstimate messages full_response
          ({content := full_response, time_taken := round2 elapsed,
            tokens := total_tokens},
           {st with total_tokens_used := st.total_tokens_used + total_tokens,
                    total_queries := st.total_queries + 1},
           [])

/-- The user-turn dict appended in `main` (line 593). -/
def userTurn (prompt : String) : Json :=
  .obj [("role", .str "user"), ("content", .str prompt)]

/-- The assistant-turn dict appended in `main` (lines 611-620). -/
def assistantTurn (rd : ChatResult) (timestamp model_name : String) : Json :=
  .obj [("role", .str "assistant"), ("content", .str rd.content),
        ("metadata", .obj [("time_taken", .float rd.time_taken),
                           ("tokens", .int rd.tokens),
                           ("timestamp", .str timestamp),
                           ("model", .str model_name)])]

/-- The chat-input branch of `main` (lines 591-624 of `src/app.py`): append
the user turn, call `process_chat` with the history *including* that turn,
append the assistant turn built from the result, and save the whole message
list to the session file.  `timestamp` stands for
`datetime.now().isoformat()`.  Returns the new session state, the new file
store, and the errors displayed during processing. -/
def mainOnPrompt (prompt : String) (stream : StreamResult) (elapsed : ℚ)
    (timestamp model_name : String) (st : AppState) (fs : FileStore) :
    AppState × FileStore × List String :=
  let messages1 := st.messages ++ [userTurn prompt]
  match process_chat prompt messages1 stream elapsed {st with messages := messages1} with
  | (rd, st2, errs) =>
      let messages2 := messages1 ++ [assistantTurn rd timestamp model_name]
      let fs' := (save_chat_history messages2 st.current_session_id fs).1
      ({st2 with messages := messages2}, fs', errs)

theorem process_chat_err (prompt : String) (history : List Json) (e : String)
    (elapsed : ℚ) (st : AppState) :
    ∃ emsg, process_chat prompt history (.err e) elapsed st
      = ({content := "I encountered an error: " ++ emsg, time_taken := 0, tokens := 0},
         st, ["Error processing chat: " ++ emsg]) := by
  cases h : build_messages prompt history with
  | error ce => exact ⟨ce, by simp [process_chat, h]⟩
  | ok ms => exact ⟨e, by simp [process_chat, h]⟩

theorem tokenEstimate_nonneg (messages : List LCMessage) (full_response : String) :
    0 ≤ tokenEstimate messages full_response := by
  rw [tokenEstimate]
  rw [Int.le_floor]
  push_cast
  apply add_nonneg
  · apply List.sum_nonneg
    intro x hx
    obtain ⟨m, _, rfl⟩ := List.mem_map.mp hx
    positivity
  · positivity

theorem msgToLC_not_system (j : Json) (m : LCMessage)
    (h : msgToLC j = .ok (some m)) : m.isSystem = false := by
  rw [msgToLC] at h
  rcases hg : getField j "role" with _ | v <;> rw [hg] at h
  · exact absurd h (by simp)
  · cases v with
    | str r =>
        dsimp only [] at h
        split_ifs at h
        · rcases hc : getField j "content" with _ | c <;> rw [hc] at h
          · exact absurd h (by simp)
          · cases c with
            | str cs =>
                obtain rfl : LCMessage.human cs = m := by simpa using h
                rfl
            | null => exact absurd h (by simp)
            | bool b => exact absurd h (by simp)
            | int n => exact absurd h (by simp)
            | float q => exact absurd h (by simp)
            | arr xs => exact absurd h (by simp)
            | obj fields => exact absurd h (by simp)
        · rcases hc : getField j "content" with _ | c <;> rw [hc] at h
          · exact absurd h (by simp)
          · cases c with
            | str cs =>
                obtain rfl : LCMessage.ai cs = m := by simpa using h
                rfl
            | null => exact absurd h (by simp)
            | bool b => exact absurd h (by simp)
            | int n => exact absurd h (by simp)
            | float q => exact absurd h (by simp)
            | arr xs => exact absurd h (by simp)
            | obj fields => exact absurd h (by simp)
        · exact absurd h (by simp)
    | null => exact absurd h (by simp)
    | bool b => exact absurd h (by simp)
    | int n => exact absurd h (by simp)
    | float q => exact absurd h (by simp)
    | arr xs => exact absurd h (by simp)
    | obj fields => exact absurd h (by simp)

theorem historyToLC_not_system (l : List Json) (ms : List LCMessage)
    (h : historyToLC l = .ok ms) : ∀ m ∈ ms, m.isSystem = false := by
  induction l generalizing ms with
  | nil =>
      rw [historyToLC] at h
      obtain rfl : ([] : List LCMessage) = ms := by simpa using h
      simp
  | cons j rest ih =>
      rw [historyToLC] at h
      cases hj : msgToLC j with
      | error e => rw [hj] at h; exact absurd h (by simp)
      | ok om =>
          rw [hj] at h
          cases om with
          | none => exact ih ms h
          | some m0 =>
              cases hr : historyToLC rest with
              | error e => rw [hr] at h; exact absurd h (by simp [Except.map])
              | ok ms0 =>
                  rw [hr] at h
                  obtain rfl : m0 :: ms0 = ms := by simpa [Except.map] using h
                  intro m hm
                  rcases List.mem_cons.mp hm with rfl | hm0
                  · exact msgToLC_not_system j m hj
                  · exact ih ms0 hr m hm0

theorem mainOnPrompt_eq (prompt : String) (stream : StreamResult) (elapsed : ℚ)
    (timestamp model_name : String) (st : AppState) (fs : FileStore)
    (rd : ChatResult) (st2 : AppState) (errs : List String)
    (hpc : process_chat prompt (st.messages ++ [userTurn prompt]) stream elapsed
        {st with messages := st.messages ++ [userTurn prompt]} = (rd, st2, errs)) :
    mainOnPrompt prompt stream elapsed timestamp model_name st fs
      = ({st2 with messages :=
            st.messages ++ [userTurn prompt, assistantTurn rd timestamp model_name]},
         fsWrite fs (get_chat_history_path st.current_session_id)
           (.val (.arr (st.messages
              ++ [userTurn prompt, assistantTurn rd timestamp model_name]))),
         errs) := by
  simp only [mainOnPrompt, hpc, save_chat_history, fsWrite, List.append_assoc,
    List.cons_append, List.nil_append]

/-- C3 as stated is false: after a failed remote call the stored turn list
is two turns longer than before the user turn was appended (the user turn
plus an assistant turn carrying the error text), not at most one.  Concrete
run: empty history, prompt `"hi"`, remote call raising `"boom"`. -/
theorem c3_counterexample :
    (mainOnPrompt "hi" (.err "boom") 0 "T" "m" ⟨[], "s", 0, 0⟩ []).1.messages.length = 2 ∧
    fsRead (mainOnPrompt "hi" (.err "boom") 0 "T" "m" ⟨[], "s", 0, 0⟩ []).2.1
        (get_chat_history_path "s")
      = some (.val (.arr [userTurn "hi",
          assistantTurn ⟨"I encountered an error: boom", 0, 0⟩ "T" "m"])) ∧
    ¬ ((2 : Nat) ≤ ([] : List Json).length + 1) := by
  refine ⟨rfl, rfl, by simp⟩

/-- C3 amended: for every prompt submission in which the remote call fails,
the stored turn list after the call is exactly two turns longer than it was
before the user turn was appended — the user turn and one assistant turn
whose content is the error text; no partial or garbled entry (in
particular, none of the partially streamed chunks) is stored. -/
theorem c3_amended_failed_call_history (prompt e : String) (elapsed : ℚ)
    (timestamp model_name : String) (st : AppState) (fs : FileStore) :
    ∃ emsg,
      (mainOnPrompt prompt (.err e) elapsed timestamp model_name st fs).1.messages
        = st.messages ++ [userTurn prompt,
            assistantTurn ⟨"I encountered an error: " ++ emsg, 0, 0⟩ timestamp model_name] ∧
      fsRead (mainOnPrompt prompt (.err e) elapsed timestamp model_name st fs).2.1
          (get_chat_history_path st.current_session_id)
        = some (.val (.arr
            ((mainOnPrompt prompt (.err e) elapsed timestamp model_name st fs).1.messages))) ∧
      (mainOnPrompt prompt (.err e) elapsed timestamp model_name st fs).1.messages.length
        = st.messages.length + 2 := by
  obtain ⟨emsg, hpc⟩ :=
    process_chat_err prompt (st.messages ++ [userTurn prompt]) e elapsed
      {st with messages := st.messages ++ [userTurn prompt]}
  rw [mainOnPrompt_eq prompt (.err e) elapsed timestamp model_name st fs _ _ _ hpc]
  refine ⟨emsg, rfl, ?_, by simp⟩
  simp [fsRead, fsWrite, List.lookup]

/-- C4: every failure raised by the remote call is caught at the call site
in `process_chat` (which returns the error-result dict instead of
propagating), is converted to one displayed error message, and the
conversation is left with an assistant turn whose content is the error
text; the call is made exactly once (the model consumes one
`StreamResult`), so nothing is retried. -/
theorem c4_remote_failure_policy (prompt e : String) (history : List Json)
    (hist : List LCMessage) (elapsed : ℚ) (timestamp model_name : String)
    (st : AppState) (fs : FileStore)
    (hb : historyToLC (lastN 5 history) = .ok hist) :
    process_chat prompt history (.err e) elapsed st
      = ({content := "I encountered an error: " ++ e, time_taken := 0, tokens := 0},
         st, ["Error processing chat: " ++ e]) ∧
    (∃ emsg,
      (mainOnPrompt prompt (.err e) elapsed timestamp model_name st fs).1.messages
        = st.messages ++ [userTurn prompt,
            assistantTurn ⟨"I encountered an error: " ++ emsg, 0, 0⟩ timestamp model_name]) := by
  constructor
  · simp [process_chat, build_messages, hb, Except.map]
  · obtain ⟨emsg, hpc⟩ :=
      process_chat_err prompt (st.messages ++ [userTurn prompt]) e elapsed
        {st with messages := st.messages ++ [userTurn prompt]}
    exact ⟨emsg,
      by rw [mainOnPrompt_eq prompt (.err e) elapsed timestamp model_name st fs _ _ _ hpc]⟩

theorem c4_remote_failure_policy_witness :
    process_chat "hi" [] (.err "boom") 0 ⟨[], "s", 0, 0⟩
      = ({content := "I encountered an error: boom", time_taken := 0, tokens := 0},
         ⟨[], "s", 0, 0⟩, ["Error processing chat: boom"]) ∧
    (∃ emsg,
      (mainOnPrompt "hi" (.err "boom") 0 "T" "m" ⟨[], "s", 0, 0⟩ []).1.messages
        = ([] : List Json) ++ [userTurn "hi",
            assistantTurn ⟨"I encountered an error: " ++ emsg, 0, 0⟩ "T" "m"]) := by
  have h := c4_remote_failure_policy "hi" "boom" [] [] 0 "T" "m" ⟨[], "s", 0, 0⟩ [] rfl
  simpa using h

/-- C6: on every request/response pair the entire in-memory turn list is
written in full to the single file `<session_id>.json` inside the
chat-history folder, overwriting whatever the file held before (the new
store binds the path to the complete current list, for any prior store). -/
theorem c6_full_overwrite_save (prompt : String) (stream : StreamResult) (elapsed : ℚ)
    (timestamp model_name : String) (st : AppState) (fs : FileStore) :
    get_chat_history_path st.current_session_id
      = CHAT_HISTORY_FOLDER ++ "/" ++ st.current_session_id ++ ".json" ∧
    (mainOnPrompt prompt stream elapsed timestamp model_name st fs).2.1
      = fsWrite fs (get_chat_history_path st.current_session_id)
          (.val (.arr (mainOnPrompt prompt stream elapsed timestamp model_name st fs).1.messages)) ∧
    fsRead (mainOnPrompt prompt stream elapsed timestamp model_name st fs).2.1
        (get_chat_history_path st.current_session_id)
      = some (.val (.arr (mainOnPrompt prompt stream elapsed timestamp model_name st fs).1.messages)) ∧
    ∃ rd, (mainOnPrompt prompt stream elapsed timestamp model_name st fs).1.messages
      = st.messages ++ [userTurn prompt, assistantTurn rd timestamp model_name] := by
  rcases hpc : process_chat prompt (st.messages ++ [userTurn prompt]) stream elapsed
      {st with messages := st.messages ++ [userTurn prompt]} with ⟨rd, st2, errs⟩
  rw [mainOnPrompt_eq prompt stream elapsed timestamp model_name st fs _ _ _ hpc]
  refine ⟨rfl, rfl, ?_, ⟨rd, rfl⟩⟩
  simp [fsRead, fsWrite, List.lookup]

/-- C7: the system instruction never enters the stored conversation — the
only turns `main` appends carry roles `"user"` and `"assistant"` — and the
`SystemMessage` appears only in the transient outbound message list, at
position zero (no later outbound message is a system message). -/
theorem c7_system_never_stored (prompt : String) (stream : StreamResult) (elapsed : ℚ)
    (timestamp model_name p2 : String) (h2 : List Json) (msgs : List LCMessage)
    (st : AppState) (fs : FileStore)
    (hb : build_messages p2 h2 = .ok msgs) :
    (∃ rd, (mainOnPrompt prompt stream elapsed timestamp model_name st fs).1.messages
        = st.messages ++ [userTurn prompt, assistantTurn rd timestamp model_name]) ∧
    getField (userTurn prompt) "role" = some (.str "user") ∧
    (∀ rd, getField (assistantTurn rd timestamp model_name) "role" = some (.str "assistant")) ∧
    msgs.head? = some (.system system_prompt) ∧
    (∀ m ∈ msgs.tail, m.isSystem = false) := by
  cases hh : historyToLC (lastN 5 h2) with
  | error ce => rw [build_messages, hh] at hb; exact absurd hb (by simp [Except.map])
  | ok hist2 =>
      rw [build_messages, hh] at hb
      obtain rfl : LCMessage.system system_prompt :: (hist2 ++ [.human p2]) = msgs := by
        simpa [Except.map] using hb
      rcases hpc : process_chat prompt (st.messages ++ [userTurn prompt]) stream elapsed
          {st with messages := st.messages ++ [userTurn prompt]} with ⟨rd, st2, errs⟩
      refine ⟨⟨rd,
        by rw [mainOnPrompt_eq prompt stream elapsed timestamp model_name st fs _ _ _ hpc]⟩,
        rfl, fun _ => rfl, rfl, ?_⟩
      intro m hm
      rcases (by simpa using hm : m ∈ hist2 ∨ m = LCMessage.human p2) with hm2 | rfl
      · exact historyToLC_not_system _ _ hh m hm2
      · rfl

theorem c7_system_never_stored_witness :
    (∃ rd, (mainOnPrompt "hi" (.ok ["ans"]) 0 "T" "m" ⟨[], "s", 0, 0⟩ []).1.messages
        = ([] : List Json) ++ [userTurn "hi", assistantTurn rd "T" "m"]) ∧
    getField (userTurn "hi") "role" = some (.str "user") ∧
    (∀ rd, getField (assistantTurn rd "T" "m") "role" = some (.str "assistant")) ∧
    ([LCMessage.system system_prompt, .human "q"] : List LCMessage).head?
      = some (.system system_prompt) ∧
    (∀ m ∈ ([LCMessage.system system_prompt, .human "q"] : List LCMessage).tail,
      m.isSystem = false) :=
  c7_system_never_stored "hi" (.ok ["ans"]) 0 "T" "m" "q" [] _ ⟨[], "s", 0, 0⟩ [] rfl

/-- C10: on a successful call `process_chat` bumps `total_queries` by one
and `total_tokens_used` by exactly the token estimate it returns, which is
non-negative; on the error path neither counter changes and the returned
`time_taken` and `tokens` are both 0. -/
theorem c10_usage_counters (prompt : String) (history : List Json)
    (hist : List LCMessage) (chunks : List String) (e : String) (elapsed : ℚ)
    (st : AppState)
    (hb : historyToLC (lastN 5 history) = .ok hist) :
    ((process_chat prompt history (.ok chunks) elapsed st).2.1.total_queries
        = st.total_queries + 1 ∧
     (process_chat prompt history (.ok chunks) elapsed st).2.1.total_tokens_used
        = st.total_tokens_used
            + (process_chat prompt history (.ok chunks) elapsed st).1.tokens ∧
     0 ≤ (process_chat prompt history (.ok chunks) elapsed st).1.tokens) ∧
    ((process_chat prompt history (.err e) elapsed st).2.1 = st ∧
     (process_chat prompt history (.err e) elapsed st).1.time_taken = 0 ∧
     (process_chat prompt history (.err e) elapsed st).1.tokens = 0) := by
  constructor
  · refine ⟨?_, ?_, ?_⟩ <;>
      simp [process_chat, build_messages, hb, Except.map, tokenEstimate_nonneg]
  · cases h : build_messages prompt history with
    | error ce => exact ⟨by simp [process_chat, h], by simp [process_chat, h],
        by simp [process_chat, h]⟩
    | ok ms => exact ⟨by simp [process_chat, h], by simp [process_chat, h],
        by simp [process_chat, h]⟩

theorem c10_usage_counters_witness :
    ((process_chat "hi" [] (.ok ["a b"]) 0 ⟨[], "s", 0, 0⟩).2.1.total_queries = 0 + 1 ∧
     (process_chat "hi" [] (.ok ["a b"]) 0 ⟨[], "s", 0, 0⟩).2.1.total_tokens_used
        = 0 + (process_chat "hi" [] (.ok ["a b"]) 0 ⟨[], "s", 0, 0⟩).1.tokens ∧
     0 ≤ (process_chat "hi" [] (.ok ["a b"]) 0 ⟨[], "s", 0, 0⟩).1.tokens) ∧
    ((process_chat "hi" [] (.err "x") 0 ⟨[], "s", 0, 0⟩).2.1 = ⟨[], "s", 0, 0⟩ ∧
     (process_chat "hi" [] (.err "x") 0 ⟨[], "s", 0, 0⟩).1.time_taken = 0 ∧
     (process_chat "hi" [] (.err "x") 0 ⟨[], "s", 0, 0⟩).1.tokens = 0) :=
  c10_usage_counters "hi" [] [] ["a b"] "x" 0 ⟨[], "s", 0, 0⟩ rfl

/-- C5 as stated is false: on a history file holding corrupt JSON,
`load_chat_history` does return the empty list, but not silently — it
displays `st.error("Failed to load chat history: ...")` (lines 248-250 of
`src/app.py`; only the `FileNotFoundError` branch is silent). -/
theorem c5_counterexample :
    fsRead [(get_chat_history_path "s", FileContent.corrupt "bad")]
        (get_chat_history_path "s")
      = some (.corrupt "bad") ∧
    (load_chat_history "s"
        [(get_chat_history_path "s", FileContent.corrupt "bad")]).2
      = ["Failed to load chat history: bad"] :=
  ⟨rfl, rfl⟩

/-- C5 amended: for a session whose history file is missing or corrupt,
`load_chat_history` returns the empty turn list; it is silent exactly when
the file is missing, and displays an error message when the file is corrupt
(silent skipping of corrupt files happens only in `get_chat_sessions`). -/
theorem c5_amended_missing_or_corrupt (fs : FileStore) (sid : String)
    (h : fsRead fs (get_chat_history_path sid) = none ∨
         ∃ e, fsRead fs (get_chat_history_path sid) = some (.corrupt e)) :
    (load_chat_history sid fs).1 = Json.arr [] ∧
    ((load_chat_history sid fs).2 = [] ↔
      fsRead fs (get_chat_history_path sid) = none) := by
  rcases h with h | ⟨e, h⟩ <;> simp [load_chat_history, h]

theorem c5_amended_missing_or_corrupt_witness :
    ((load_chat_history "s"
        [(get_chat_history_path "s", FileContent.corrupt "bad")]).1 = Json.arr [] ∧
     ((load_chat_history "s"
        [(get_chat_history_path "s", FileContent.corrupt "bad")]).2 = [] ↔
       fsRead [(get_chat_history_path "s", FileContent.corrupt "bad")]
           (get_chat_history_path "s") = none)) :=
  c5_amended_missing_or_corrupt _ "s" (Or.inr ⟨"bad", rfl⟩)

/-- Reading of one well-formed stored turn, as the outbound conversion
treats it: a `"user"` turn becomes a `HumanMessage`, an `"assistant"` turn
an `AIMessage`, any other role is dropped. -/
def toLC (j : Json) : Option LCMessage :=
  match getField j "role", getField j "content" with
  | some (.str r), some (.str c) =>
      if r = "user" then some (.human c)
      else if r = "assistant" then some (.ai c)
      else none
  | _, _ => none

/-- A stored message dict shaped so that the conversion loop of
`process_chat` cannot raise: its `role` is a string, and when that role is
`"user"` or `"assistant"` its `content` is a string. -/
def TurnOk (j : Json) : Prop :=
  ∃ r, getField j "role" = some (.str r) ∧
    ((r = "user" ∨ r = "assistant") → ∃ c, getField j "content" = some (.str c))

theorem msgToLC_eq_toLC (j : Json) (h : TurnOk j) : msgToLC j = .ok (toLC j) := by
  obtain ⟨r, hr, hc⟩ := h
  rw [msgToLC, toLC, hr]
  by_cases hu : r = "user"
  · obtain ⟨c, hcc⟩ := hc (Or.inl hu)
    rw [hcc]
    simp [hu]
  · by_cases ha : r = "assistant"
    · obtain ⟨c, hcc⟩ := hc (Or.inr ha)
      rw [hcc]
      simp [hu, ha]
    · rcases hcc : getField j "content" with _ | c
      · simp [hu, ha]
      · cases c <;> simp [hu, ha]

theorem historyToLC_eq_filterMap (l : List Json) (h : ∀ j ∈ l, TurnOk j) :
    historyToLC l = .ok (l.filterMap toLC) := by
  induction l with
  | nil => rfl
  | cons j rest ih =>
      have hrest := ih (fun x hx => h x (List.mem_cons_of_mem _ hx))
      rw [historyToLC, msgToLC_eq_toLC j (h j (List.mem_cons_self _ _))]
      cases ht : toLC j with
      | none => simp [List.filterMap_cons, ht, hrest]
      | some m => simp [List.filterMap_cons, ht, hrest, Except.map]

/-- C8: for well-formed history turns, the outbound message list built by
`process_chat` is exactly the system message first, then the last five
history turns with role `"user"`/`"assistant"` converted in order (at most
five messages), then the current prompt as the final human message; earlier
history turns are never sent. -/
theorem c8_outbound_message_list (prompt : String) (history : List Json)
    (h : ∀ j ∈ lastN 5 history, TurnOk j) :
    build_messages prompt history
      = .ok (.system system_prompt
          :: ((lastN 5 history).filterMap toLC ++ [.human prompt])) ∧
    ((lastN 5 history).filterMap toLC).length ≤ 5 := by
  constructor
  · rw [build_messages, historyToLC_eq_filterMap _ h]
    rfl
  · calc ((lastN 5 history).filterMap toLC).length
        ≤ (lastN 5 history).length := List.length_filterMap_le _ _
      _ ≤ 5 := by rw [lastN, List.length_drop]; omega

theorem c8_outbound_message_list_witness :
    build_messages "q" [userTurn "a"]
      = .ok (.system system_prompt
          :: ((lastN 5 [userTurn "a"]).filterMap toLC ++ [.human "q"])) ∧
    ((lastN 5 [userTurn "a"]).filterMap toLC).length ≤ 5 :=
  c8_outbound_message_list "q" [userTurn "a"]
    (by
      intro j hj
      obtain rfl : j = userTurn "a" := by simpa [lastN] using hj
      exact ⟨"user", rfl, fun _ => ⟨"a", rfl⟩⟩)

/-- Whether `pat` is a leading segment of `l` (an executable check used by
the string helpers below). -/
def listStartsWith : List Char → List Char → Bool
  | [], _ => true
  | _ :: _, [] => false
  | p :: ps, c :: cs => p == c && listStartsWith ps cs

/-- Python `s.endswith(suffix)` (an executable model of
`String.endsWith`). -/
def strEndsWith (s suffix : String) : Bool :=
  s.data.drop (s.data.length - suffix.data.length) == suffix.data

/-- Replace every non-overlapping occurrence of `old` (non-empty) by `new`,
scanning left to right; `fuel` bounds the recursion by the input length. -/
def replaceFuel (old new : List Char) : Nat → List Char → List Char
  | 0, l => l
  | _ + 1, [] => []
  | fuel + 1, c :: rest =>
      if listStartsWith old (c :: rest) && !old.isEmpty then
        new ++ replaceFuel old new fuel (List.drop (old.length - 1) rest)
      else
        c :: replaceFuel old new fuel rest

/-- Python `s.replace(old, new)` for non-empty `old` (an executable model
of `String.replace`). -/
def pyReplace (s old new : String) : String :=
  ⟨replaceFuel old.data new.data s.data.length s.data⟩

/-- One entry of `os.listdir(CHAT_HISTORY_FOLDER)`, together with the
file's modification time (`os.path.getmtime`) and its content. -/
structure DirEntry where
  filename : String
  mtime : ℚ
  content : FileContent

/-- The per-session record built by `get_chat_sessions` (its `"id"`,
`"title"`, `"message_count"` fields and the `"timestamp"` sort key). -/
structure SessionMeta where
  id : String
  title : Json
  message_count : Nat
  mtime : ℚ

/-- Python truthiness of a parsed JSON value (`if messages:`). -/
def pyTruthy : Json → Bool
  | .null => false
  | .bool b => b
  | .int n => n != 0
  | .float q => q != 0
  | .str s => !s.isEmpty
  | .arr xs => !xs.isEmpty
  | .obj fields => !fields.isEmpty

/-- The generator `next((m for m in messages if m["role"] == "user"), None)`
in `get_chat_sessions`: scan in order, stopping at the first match;
`m["role"]` on an element that is not a dict with a `role` key raises
(`Except.error`), which the surrounding `try` turns into skipping the
file.  Elements after the first match are never inspected. -/
def findFirstUser : List Json → Except Unit (Option Json)
  | [] => .ok none
  | m :: rest =>
      match getField m "role" with
      | none => .error ()
      | some (.str r) => if r = "user" then .ok (some m) else findFirstUser rest
      | some _ => findFirstUser rest

/-- Python `x[:50]`: slicing applies to strings and lists; anything else
raises `TypeError`. -/
def pySlice50 : Json → Except Unit Json
  | .str s => .ok (.str (s.take 50))
  | .arr xs => .ok (.arr (xs.take 50))
  | _ => .error ()

/-- `first_message["content"][:50] if first_message else "Untitled Chat"`. -/
def sessionTitle (first : Option Json) : Except Unit Json :=
  match first with
  | none => .ok (.str "Untitled Chat")
  | some m =>
      match getField m "content" with
      | none => .error ()
      | some c => pySlice50 c

/-- The `try` body of `get_chat_sessions` for one directory entry (lines
256-272 of `src/app.py`): `none` when the file is skipped — no `.json`
suffix, corrupt JSON, falsy parse (e.g. an empty list), a parse that is not
a list (iterating it and subscripting raises), or any exception while
scanning for the first user message or slicing its content. -/
def sessionOfEntry (e : DirEntry) : Option SessionMeta :=
  if strEndsWith e.filename ".json" then
    match e.content with
    | .corrupt _ => none
    | .val j =>
        if pyTruthy j then
          match j with
          | .arr ms =>
              match findFirstUser ms with
              | .error _ => none
              | .ok first =>
                  match sessionTitle first with
                  | .error _ => none
                  | .ok t =>
                      some ⟨pyReplace e.filename ".json" "", t, ms.length, e.mtime⟩
          | _ => none
        else none
  else none

/-- Python dict assignment `sessions[session_id] = ...` on an
insertion-ordered dict: an existing key keeps its position with the value
replaced, a new key is appended at the end. -/
def dictInsert : List SessionMeta → SessionMeta → List SessionMeta
  | [], s => [s]
  | x :: xs, s => if x.id = s.id then s :: xs else x :: dictInsert xs s

/-- Sort key of `sorted(sessions.items(), key=lambda x: x[1]["timestamp"],
reverse=True)`: newest first. -/
def newerFirst (a b : SessionMeta) : Prop := b.mtime ≤ a.mtime

instance : DecidableRel newerFirst :=
  fun a b => inferInstanceAs (Decidable (b.mtime ≤ a.mtime))

instance : IsTotal SessionMeta newerFirst := ⟨fun a b => le_total b.mtime a.mtime⟩

instance : IsTrans SessionMeta newerFirst := ⟨fun _ _ _ hab hbc => le_trans hbc hab⟩

/-- The final `dict(sorted(...))`: sessions ordered newest first. -/
def sortSessions (l : List SessionMeta) : List SessionMeta :=
  l.insertionSort newerFirst

/-- `get_chat_sessions` from `src/app.py` (lines 252-277), over the listed
directory entries: collect the per-file session records into an
insertion-ordered dict, then sort newest first. -/
def get_chat_sessions (entries : List DirEntry) : List SessionMeta :=
  sortSessions (entries.foldl (fun acc e =>
    match sessionOfEntry e with
    | none => acc
    | some s => dictInsert acc s) [])

/-- One directory entry as claim C9 describes it: kept iff the file name
ends in `.json` and its content parses to a non-empty message list; the
title is the first 50 characters of the content of the first user-role
message (`"Untitled Chat"` when no user message exists) and
`message_count` is the list length; files that fail to parse are skipped. -/
def sessionOfEntrySpec (e : DirEntry) : Option SessionMeta :=
  if strEndsWith e.filename ".json" then
    match e.content with
    | .corrupt _ => none
    | .val j =>
        match decodeTurns j with
        | none => none
        | some ts =>
            if ts.isEmpty then none
            else
              some ⟨pyReplace e.filename ".json" "",
                (match ts.find? (fun t => t.role == "user") with
                 | some t => .str (t.content.take 50)
                 | none => .str "Untitled Chat"),
                ts.length, e.mtime⟩
  else none

theorem findFirstUser_encode (ts : List Turn) :
    findFirstUser (ts.map encodeTurn)
      = .ok ((ts.find? (fun t => t.role == "user")).map encodeTurn) := by
  induction ts with
  | nil => rfl
  | cons t rest ih =>
      rw [List.map_cons, findFirstUser,
        show getField (encodeTurn t) "role" = some (.str t.role) from rfl]
      dsimp only []
      by_cases hu : t.role = "user"
      · rw [if_pos hu, List.find?_cons_of_pos _ (by simp [hu])]
        rfl
      · rw [if_neg hu, List.find?_cons_of_neg _ (by simp [hu])]
        exact ih

theorem sessionOfEntry_eq_spec (e : DirEntry)
    (h : (∃ m, e.content = .corrupt m) ∨ ∃ ts, e.content = .val (encodeTurns ts)) :
    sessionOfEntry e = sessionOfEntrySpec e := by
  obtain ⟨fn, mt, c⟩ := e
  rcases h with ⟨m, rfl⟩ | ⟨ts, rfl⟩
  · cases he : strEndsWith fn ".json" <;>
      simp [sessionOfEntry, sessionOfEntrySpec, he]
  · cases he : strEndsWith fn ".json"
    · simp [sessionOfEntry, sessionOfEntrySpec, he]
    · cases ts with
      | nil =>
          simp [sessionOfEntry, sessionOfEntrySpec, he, encodeTurns, pyTruthy,
            decodeTurns, List.mapM.loop]
      | cons t rest =>
          have hdec := decodeTurns_encodeTurns (t :: rest)
          rw [sessionOfEntry, sessionOfEntrySpec]
          dsimp only []
          rw [he, hdec]
          dsimp only [encodeTurns, pyTruthy]
          rw [show (List.map encodeTurn (t :: rest)).isEmpty = false from
                by simp [List.map_cons]]
          rw [findFirstUser_encode]
          dsimp only []
          cases hfind : List.find? (fun t => t.role == "user") (t :: rest) with
          | none => simp [sessionTitle]
          | some t0 =>
              rw [Option.map_some']
              dsimp only [sessionTitle]
              rw [show getField (encodeTurn t0) "content" = some (.str t0.content)
                    from rfl]
              simp [pySlice50]


theorem dictInsert_append (acc : List SessionMeta) (s : SessionMeta)
    (h : ∀ a ∈ acc, a.id ≠ s.id) :
    dictInsert acc s = acc ++ [s] := by
  induction acc with
  | nil => rfl
  | cons x xs ih =>
      rw [dictInsert, if_neg (h x (List.mem_cons_self _ _)), List.cons_append,
        ih (fun a ha => h a (List.mem_cons_of_mem _ ha))]

theorem foldl_dictInsert_eq_filterMap (f : DirEntry → Option SessionMeta) :
    ∀ (l : List DirEntry) (acc : List SessionMeta),
      (∀ s ∈ l.filterMap f, ∀ a ∈ acc, a.id ≠ s.id) →
      ((l.filterMap f).map SessionMeta.id).Nodup →
      l.foldl (fun acc e =>
          match f e with
          | none => acc
          | some s => dictInsert acc s) acc
        = acc ++ l.filterMap f := by
  intro l
  induction l with
  | nil => intro acc _ _; simp
  | cons e rest ih =>
      intro acc hdisj hnd
      rw [List.foldl_cons]
      cases hf : f e with
      | none =>
          have hfm : (e :: rest).filterMap f = rest.filterMap f := by
            simp [List.filterMap_cons, hf]
          rw [hfm] at hdisj hnd
          simpa [hfm] using ih acc hdisj hnd
      | some s =>
          have hfm : (e :: rest).filterMap f = s :: rest.filterMap f := by
            simp [List.filterMap_cons, hf]
          rw [hfm] at hdisj hnd
          have hnd' : s.id ∉ (rest.filterMap f).map SessionMeta.id ∧
              ((rest.filterMap f).map SessionMeta.id).Nodup := by
            simpa using hnd
          have hins : dictInsert acc s = acc ++ [s] :=
            dictInsert_append acc s (hdisj s (List.mem_cons_self _ _))
          have hdisj2 : ∀ s2 ∈ rest.filterMap f, ∀ a ∈ acc ++ [s], a.id ≠ s2.id := by
            intro s2 hs2 a ha
            rcases List.mem_append.mp ha with ha | ha
            · exact hdisj s2 (List.mem_cons_of_mem _ hs2) a ha
            · obtain rfl : a = s := by simpa using ha
              intro hEq
              exact hnd'.1 (hEq ▸ List.mem_map_of_mem SessionMeta.id hs2)
          dsimp only []
          rw [hins, hfm, ih (acc ++ [s]) hdisj2 hnd'.2]
          simp

/-- C9: over a well-formed store (each listed file is either corrupt or an
encoded turn list) with distinct derived session ids, `get_chat_sessions`
returns exactly the sessions whose file parses to a non-empty turn list —
title the first 50 characters of the first user message's content (or
`"Untitled Chat"`), `message_count` the list length, corrupt files skipped
— ordered by file modification time, newest first. -/
theorem c9_get_chat_sessions (entries : List DirEntry)
    (hwf : ∀ e ∈ entries,
      (∃ m, e.content = .corrupt m) ∨ ∃ ts, e.content = .val (encodeTurns ts))
    (hnd : ((entries.filterMap sessionOfEntrySpec).map SessionMeta.id).Nodup) :
    get_chat_sessions entries
      = sortSessions (entries.filterMap sessionOfEntrySpec) ∧
    (get_chat_sessions entries).Pairwise newerFirst := by
  have hcong : entries.filterMap sessionOfEntry = entries.filterMap sessionOfEntrySpec :=
    List.filterMap_congr (fun e he => sessionOfEntry_eq_spec e (hwf e he))
  have hfold := foldl_dictInsert_eq_filterMap sessionOfEntry entries []
    (by simp) (by rw [hcong]; exact hnd)
  constructor
  · rw [get_chat_sessions, hfold, List.nil_append, hcong]
  · rw [get_chat_sessions, hfold, List.nil_append]
    exact List.sorted_insertionSort newerFirst _

set_option maxRecDepth 10000 in
theorem c9_get_chat_sessions_witness :
    get_chat_sessions
        [⟨"b.json", 3, .val (encodeTurns [⟨"user", "hello", none⟩])⟩,
         ⟨"c.json", 7, .corrupt "oops"⟩]
      = sortSessions
          (([⟨"b.json", 3, .val (encodeTurns [⟨"user", "hello", none⟩])⟩,
             ⟨"c.json", 7, .corrupt "oops"⟩] : List DirEntry).filterMap
            sessionOfEntrySpec) ∧
    (get_chat_sessions
        [⟨"b.json", 3, .val (encodeTurns [⟨"user", "hello", none⟩])⟩,
         ⟨"c.json", 7, .corrupt "oops"⟩]).Pairwise newerFirst :=
  c9_get_chat_sessions _
    (by
      intro e he
      rcases (by simpa using he :
          e = (⟨"b.json", 3, .val (encodeTurns [⟨"user", "hello", none⟩])⟩ : DirEntry)
          ∨ e = (⟨"c.json", 7, .corrupt "oops"⟩ : DirEntry)) with rfl | rfl
      · exact Or.inr ⟨[⟨"user", "hello", none⟩], rfl⟩
      · exact Or.inl ⟨"oops", rfl⟩)
    (by
      rw [show ([⟨"b.json", 3, .val (encodeTurns [⟨"user", "hello", none⟩])⟩,
           ⟨"c.json", 7, .corrupt "oops"⟩] : List DirEntry).filterMap sessionOfEntrySpec
          = [⟨"b", .str "hello", 1, 3⟩] from rfl]
      simp)

/-- Python `s.strip()` on a character list: remove leading and trailing
whitespace. -/
def trimChars (l : List Char) : List Char :=
  ((l.dropWhile Char.isWhitespace).reverse.dropWhile Char.isWhitespace).reverse

/-- Find the first occurrence of `pat` in the text: returns the part before
the occurrence and the part after it, or `none` when `pat` does not occur.
(The linear scan with a substring search used by the splitter below.) -/
def breakAt (pat : List Char) : List Char → Option (List Char × List Char)
  | [] => if pat.isEmpty then some ([], []) else none
  | c :: rest =>
      if listStartsWith pat (c :: rest) then
        some ([], (c :: rest).drop pat.length)
      else
        (breakAt pat rest).map (fun pr => (c :: pr.1, pr.2))

/-- Modelled from the spec: the thinking/answer splitter described in §4 of
the specification, present in the repository's other single-file variants
but absent from `src/app.py` (whose `process_chat` returns the streamed
text whole).  If the text contains the literal opening marker and, after
it, the literal closing marker, the segment from the opening marker through
the closing marker (inclusive) is the thinking segment and the remainder
after the closing marker, trimmed of surrounding whitespace, is the answer;
otherwise the whole text, unchanged, is the answer. -/
def split_thinking (openM closeM text : List Char) :
    Option (List Char) × List Char :=
  match breakAt openM text with
  | none => (none, text)
  | some (_, rest) =>
      match breakAt closeM rest with
      | none => (none, text)
      | some (mid, post) => (some (openM ++ mid ++ closeM), trimChars post)

/-- The text contains the opening marker and, after it, the closing
marker. -/
def ContainsInOrder (openM closeM text : List Char) : Prop :=
  ∃ pre mid post, text = pre ++ openM ++ mid ++ closeM ++ post

theorem listStartsWith_iff (pat l : List Char) :
    listStartsWith pat l = true ↔ ∃ t, l = pat ++ t := by
  induction pat generalizing l with
  | nil => simp [listStartsWith]
  | cons p ps ih =>
      cases l with
      | nil => simp [listStartsWith]
      | cons c cs =>
          rw [listStartsWith, Bool.and_eq_true, beq_iff_eq, ih]
          constructor
          · rintro ⟨rfl, t, rfl⟩
            exact ⟨t, rfl⟩
          · rintro ⟨t, ht⟩
            injection ht with h1 h2
            exact ⟨h1.symm, t, h2⟩

theorem breakAt_sound (pat : List Char) : ∀ (text a b : List Char),
    breakAt pat text = some (a, b) → text = a ++ pat ++ b := by
  intro text
  induction text with
  | nil =>
      intro a b h
      rw [breakAt] at h
      split_ifs at h with hp
      obtain ⟨ha, hb⟩ := Prod.mk.inj (Option.some.inj h)
      rw [← ha, ← hb, List.isEmpty_iff.mp hp]
      simp
  | cons c rest ih =>
      intro a b h
      rw [breakAt] at h
      by_cases hs : listStartsWith pat (c :: rest)
      · rw [if_pos hs] at h
        obtain ⟨t, ht⟩ := (listStartsWith_iff _ _).mp hs
        obtain ⟨ha, hb⟩ := Prod.mk.inj (Option.some.inj h)
        rw [← ha, ← hb, List.nil_append, ht, List.drop_left]
      · rw [if_neg hs] at h
        cases hr : breakAt pat rest with
        | none => rw [hr] at h; exact absurd h (by simp)
        | some pr =>
            rw [hr, Option.map_some'] at h
            obtain ⟨ha, hb⟩ := Prod.mk.inj (Option.some.inj h)
            rw [← ha, ← hb, List.cons_append]
            exact congrArg (c :: ·) (ih pr.1 pr.2 (by rw [hr]))

theorem breakAt_complete (pat : List Char) : ∀ (a b text : List Char),
    text = a ++ pat ++ b → (breakAt pat text).isSome := by
  intro a
  induction a with
  | nil =>
      intro b text ht
      cases text with
      | nil =>
          rw [breakAt]
          have hp : pat = [] := by
            rcases List.append_eq_nil.mp (by simpa using ht.symm) with ⟨h1, _⟩
            exact h1
          simp [hp]
      | cons c rest =>
          rw [breakAt]
          have hsw : listStartsWith pat (c :: rest) = true :=
            (listStartsWith_iff _ _).mpr ⟨b, by simpa using ht⟩
          rw [if_pos hsw]
          simp
  | cons x a' ih =>
      intro b text ht
      cases text with
      | nil => exact absurd ht (by simp)
      | cons c rest =>
          injection ht with h1 h2
          rw [breakAt]
          by_cases hs : listStartsWith pat (c :: rest)
          · rw [if_pos hs]; simp
          · rw [if_neg hs]
            have hsome := ih b rest h2
            cases hbr : breakAt pat rest with
            | none => rw [hbr] at hsome; simp at hsome
            | some pr => simp [hbr]

theorem breakAt_first (pat : List Char) : ∀ (text a b : List Char),
    breakAt pat text = some (a, b) →
    ∀ a' b', text = a' ++ pat ++ b' → a.length ≤ a'.length := by
  intro text
  induction text with
  | nil =>
      intro a b h a' b' ht
      rw [breakAt] at h
      split_ifs at h with hp
      obtain ⟨ha, _⟩ := Prod.mk.inj (Option.some.inj h)
      rw [← ha]
      simp
  | cons c rest ih =>
      intro a b h a' b' ht
      rw [breakAt] at h
      by_cases hs : listStartsWith pat (c :: rest)
      · rw [if_pos hs] at h
        obtain ⟨ha, _⟩ := Prod.mk.inj (Option.some.inj h)
        rw [← ha]
        simp
      · rw [if_neg hs] at h
        cases hbr : breakAt pat rest with
        | none => rw [hbr] at h; exact absurd h (by simp)
        | some pr =>
            rw [hbr, Option.map_some'] at h
            obtain ⟨ha, _⟩ := Prod.mk.inj (Option.some.inj h)
            cases a' with
            | nil =>
                exact absurd
                  ((listStartsWith_iff _ _).mpr ⟨b', by simpa using ht⟩) hs
            | cons x a'' =>
                injection ht with h1 h2
                rw [← ha]
                simpa using
                  Nat.succ_le_succ (ih pr.1 pr.2 (by rw [hbr]) a'' b' h2)

/-- C1 (splitter modelled from the spec, absent from `src/app.py`): when
the response text contains the opening marker and, after it, the closing
marker, the splitter classifies a marker-to-marker (inclusive) substring as
the thinking segment and the remainder after the closing marker, trimmed of
surrounding whitespace, as the answer; when the markers do not occur in
order (in particular when either marker is absent), the answer is the
original text unchanged and there is no thinking segment. -/
theorem c1_split_thinking_spec (openM closeM text : List Char) :
    (ContainsInOrder openM closeM text →
      ∃ pre mid post, text = pre ++ openM ++ mid ++ closeM ++ post ∧
        split_thinking openM closeM text
          = (some (openM ++ mid ++ closeM), trimChars post)) ∧
    (¬ ContainsInOrder openM closeM text →
      split_thinking openM closeM text = (none, text)) := by
  constructor
  · rintro ⟨pre, mid, post, htext⟩
    obtain ⟨⟨a, rest⟩, hbr⟩ := Option.isSome_iff_exists.mp
      (breakAt_complete openM pre (mid ++ closeM ++ post) text
        (by rw [htext]; simp [List.append_assoc]))
    have hsound := breakAt_sound openM text a rest hbr
    have hmin : a.length ≤ pre.length :=
      breakAt_first openM text a rest hbr pre (mid ++ closeM ++ post)
        (by rw [htext]; simp [List.append_assoc])
    have h3 : text = (pre ++ openM) ++ (mid ++ (closeM ++ post)) := by
      rw [htext]
      simp [List.append_assoc]
    have hrest : rest
        = ((pre ++ openM).drop (a ++ openM).length) ++ (mid ++ (closeM ++ post)) := by
      have hr1 : rest = text.drop (a ++ openM).length := by
        rw [hsound, List.drop_left]
      rw [hr1, h3, List.drop_append_eq_append_drop,
        show (a ++ openM).length - (pre ++ openM).length = 0 from by
          simp [List.length_append]; omega,
        List.drop_zero]
    obtain ⟨⟨m2, p2⟩, hbr2⟩ := Option.isSome_iff_exists.mp
      (breakAt_complete closeM ((pre ++ openM).drop (a ++ openM).length ++ mid)
        post rest (by rw [hrest]; simp [List.append_assoc]))
    have hsound2 := breakAt_sound closeM rest m2 p2 hbr2
    refine ⟨a, m2, p2, ?_, ?_⟩
    · rw [hsound, hsound2]
      simp [List.append_assoc]
    · rw [split_thinking, hbr]
      dsimp only []
      rw [hbr2]
  · intro hnc
    rw [split_thinking]
    cases hbr : breakAt openM text with
    | none => rfl
    | some pr =>
        obtain ⟨a, rest⟩ := pr
        dsimp only []
        cases hbr2 : breakAt closeM rest with
        | none => rfl
        | some pr2 =>
            obtain ⟨m2, p2⟩ := pr2
            exact absurd
              ⟨a, m2, p2, by
                rw [breakAt_sound openM text a rest hbr,
                  breakAt_sound closeM rest m2 p2 hbr2]
                simp [List.append_assoc]⟩
              hnc

theorem c1_split_thinking_spec_witness :
    ∃ pre mid post,
      "<think>abc</think> hi".data
        = pre ++ "<think>".data ++ mid ++ "</think>".data ++ post ∧
      split_thinking "<think>".data "</think>".data "<think>abc</think> hi".data
        = (some ("<think>".data ++ mid ++ "</think>".data), trimChars post) :=
  (c1_split_thinking_spec "<think>".data "</think>".data
      "<think>abc</think> hi".data).1
    ⟨[], "abc".data, " hi".data, by decide⟩

end DeepResearch
